import Mathlib

/-!
Verification of the ZeusTask8 virtualized spreadsheet grid engine.

Shallow embedding of the cell store, selection, clipboard, history,
resize and viewport logic from:
  - `src/src/Utils.js`
  - `src/src/components/Canvas/Canvas.jsx`
  - `src/src/SelectionHelper.jsx`
  - `src/src/ResizeHelper.js`

The sparse cell store (`cellData`, a JS object keyed by `"row,col"`) is
modelled as a function `(Nat × Nat) → Option String`; `none` is an absent
key.  JS `newData[key] = v` is `objSet`, `delete newData[key]` is
`objDelete`.  JS `for (i = a; i <= b; i++)` loops are folds over
`rangeIncl a b`.
-/

namespace ZeusGrid

/-- Grid constants from `Canvas.jsx` lines 19-27. -/
def TOTAL_ROWS : Nat := 100000

def TOTAL_COLS : Nat := 500

def COL_WIDTH : Nat := 80

def ROW_HEIGHT : Nat := 24

def ROW_HEADER_WIDTH : Nat := 60

def COL_HEADER_HEIGHT : Nat := 24

def CANVAS_WIDTH : Nat := 1880

def CANVAS_HEIGHT : Nat := 850

/-- The sparse cell store: JS object keyed by `"row,col"`. -/
def Store : Type := Nat × Nat → Option String

/-- A JS object with no keys. -/
def emptyStore : Store := fun _ => none

/-- JS `obj[key] = v` (functional update of the object). -/
def objSet (s : Store) (k : Nat × Nat) (v : String) : Store :=
  fun k2 => if k2 = k then some v else s k2

/-- JS `delete obj[key]`. -/
def objDelete (s : Store) (k : Nat × Nat) : Store :=
  fun k2 => if k2 = k then none else s k2

/-- Selection state, `Canvas.jsx` lines 36-42. -/
structure Selection where
  startRow : Nat
  startCol : Nat
  endRow : Nat
  endCol : Nat
  isRange : Bool
  deriving DecidableEq, Repr

/-- Clipboard snapshot, `Utils.js` `handleCopy` result shape. -/
structure Clipboard where
  data : List (List String)
  cut : Bool
  deriving DecidableEq, Repr

/-- The index list visited by a JS loop `for (i = a; i <= b; i++)`:
`a, a+1, ..., b` (empty when `b < a`). -/
def rangeIncl (a b : Nat) : List Nat :=
  (List.range (b + 1 - a)).map (a + ·)

/-- `handleCopy` from `Utils.js` lines 102-113: dense 2-D snapshot of the
selection, `cellData[key] || ''` substituting `''` for absent cells. -/
def handleCopy (cd : Store) (sel : Selection) : Clipboard :=
  { data :=
      (rangeIncl sel.startRow sel.endRow).map fun r =>
        (rangeIncl sel.startCol sel.endCol).map fun c => (cd (r, c)).getD ""
    cut := false }

/-- The delete loop shared by `handleCut` (`Utils.js` lines 126-132) and
`handleDelete` (`Utils.js` lines 173-179): `delete newData[key]` for every
key of the selection rectangle. -/
def deleteRange (nd : Store) (sel : Selection) : Store :=
  (rangeIncl sel.startRow sel.endRow).foldl
    (fun nd2 r =>
      (rangeIncl sel.startCol sel.endCol).foldl
        (fun nd3 c => objDelete nd3 (r, c)) nd2)
    nd

/-- `handleDelete` from `Utils.js` lines 172-181: spread-copy the store and
delete every key in the selection. -/
def handleDelete (cd : Store) (sel : Selection) : Store :=
  deleteRange cd sel

/-- `handleCut` from `Utils.js` lines 121-135: copy with `cut := true`,
then delete the selection from a spread copy. -/
def handleCut (cd : Store) (sel : Selection) : Clipboard × Store :=
  ({ handleCopy cd sel with cut := true }, deleteRange cd sel)

/-- Inner paste loop of `handlePaste` (`Utils.js` lines 152-161): write the
cells of one clipboard row at target row `tr`, columns `ac + c0`,
`ac + c0 + 1`, ..., skipping targets at or beyond the grid bounds. -/
def pasteRow (nd : Store) (tr ac TR TC : Nat) (cells : List String) (c0 : Nat) : Store :=
  match cells with
  | [] => nd
  | v :: rest =>
      pasteRow (if tr < TR ∧ ac + c0 < TC then objSet nd (tr, ac + c0) v else nd)
        tr ac TR TC rest (c0 + 1)

/-- Outer paste loop of `handlePaste`: clipboard row `r0` goes to target
row `ar + r0`. -/
def pasteRows (nd : Store) (ar ac TR TC : Nat) (rows : List (List String)) (r0 : Nat) : Store :=
  match rows with
  | [] => nd
  | row :: rest => pasteRows (pasteRow nd (ar + r0) ac TR TC row 0) ar ac TR TC rest (r0 + 1)

/-- `handlePaste` from `Utils.js` lines 146-164: `null` for a missing
clipboard, otherwise write the clipboard block into a spread copy of the
store anchored at `selected`, clipped to the grid bounds. -/
def handlePaste (cd : Store) (clipboard : Option Clipboard) (selected : Nat × Nat)
    (TR TC : Nat) : Option Store :=
  match clipboard with
  | none => none
  | some cb => some (pasteRows cd selected.1 selected.2 TR TC cb.data 0)

/-- Selection produced by `handlePointerMove` while dragging,
`Canvas.jsx` lines 582-588: min/max-normalized bounds between the drag
anchor (`startSelection`) and the cell under the pointer. -/
def dragSelection (anchor focus : Nat × Nat) : Selection :=
  { startRow := min anchor.1 focus.1
    endRow := max anchor.1 focus.1
    startCol := min anchor.2 focus.2
    endCol := max anchor.2 focus.2
    isRange := anchor.1 != focus.1 || anchor.2 != focus.2 }

/-- `handleColumnSelection` from `SelectionHelper.jsx` lines 11-22: the
selection and selected cell stored for a column-header click. -/
def handleColumnSelection (colIndex totalRows : Nat) : Selection × (Nat × Nat) :=
  ({ startRow := 0
     endRow := totalRows - 1
     startCol := colIndex
     endCol := colIndex
     isRange := true },
   (0, colIndex))

/-- `handleRowSelection` from `SelectionHelper.jsx` lines 33-44: the
selection and selected cell stored for a row-header click. -/
def handleRowSelection (rowIndex totalCols : Nat) : Selection × (Nat × Nat) :=
  ({ startRow := rowIndex
     endRow := rowIndex
     startCol := 0
     endCol := totalCols - 1
     isRange := true },
   (rowIndex, 0))

/-- Per-axis size override map of `ResizeHelper.js` (`colWidths` /
`rowHeights`, JS `Map`). -/
def SizeMap : Type := Nat → Option Int

/-- JS `new Map(m); m.set(i, v)`. -/
def mapSet (m : SizeMap) (i : Nat) (v : Int) : SizeMap :=
  fun j => if j = i then some v else m j

/-- `MIN_COL_WIDTH` from `ResizeHelper.js` line 4. -/
def MIN_COL_WIDTH : Int := 20

/-- `MIN_ROW_HEIGHT` from `ResizeHelper.js` line 5. -/
def MIN_ROW_HEIGHT : Int := 16

/-- `handleColumnResize` from `ResizeHelper.js` lines 247-257: clamp the
requested width to the floor and store it.  The embedding returns the map
handed to the `setColWidths` callback. -/
def handleColumnResize (colIndex : Nat) (newWidth : Int) (colWidths : SizeMap) : SizeMap :=
  mapSet colWidths colIndex (max MIN_COL_WIDTH newWidth)

/-- `handleRowResize` from `ResizeHelper.js` lines 262-272. -/
def handleRowResize (rowIndex : Nat) (newHeight : Int) (rowHeights : SizeMap) : SizeMap :=
  mapSet rowHeights rowIndex (max MIN_ROW_HEIGHT newHeight)

/-- A key-value record handed to `handleLoadData` (a JS object; values are
modelled already coerced to strings, absent keys give `none`). -/
abbrev Record : Type := List (String × String)

/-- JS `row[header]`: first binding of the key, `none` when absent. -/
def lookupRec (row : Record) (header : String) : Option String :=
  (row.find? fun p => p.1 = header).map Prod.snd

/-- Header loop of `handleLoadData` (`Utils.js` lines 227-231): the `j0`-th
header goes to key `(0, j0)` when `j0 < TC`. -/
def loadHeaders (nd : Store) (headers : List String) (j0 TC : Nat) : Store :=
  match headers with
  | [] => nd
  | h :: rest => loadHeaders (if j0 < TC then objSet nd (0, j0) h else nd) rest (j0 + 1) TC

/-- Inner record loop of `handleLoadData` (`Utils.js` lines 236-240): write
`String(row[header] ?? '')` at `(ri, j0)` for each header, clipped to `TC`. -/
def loadRecord (nd : Store) (ri : Nat) (headers : List String) (row : Record) (j0 TC : Nat) :
    Store :=
  match headers with
  | [] => nd
  | h :: rest =>
      loadRecord (if j0 < TC then objSet nd (ri, j0) ((lookupRec row h).getD "") else nd)
        ri rest row (j0 + 1) TC

/-- Outer record loop of `handleLoadData` (`Utils.js` lines 234-242):
record `r0` populates row `r0 + 1` when `r0 + 1 < TR`. -/
def loadRecords (nd : Store) (rows : List Record) (headers : List String) (r0 TR TC : Nat) :
    Store :=
  match rows with
  | [] => nd
  | row :: rest =>
      loadRecords (if r0 + 1 < TR then loadRecord nd (r0 + 1) headers row 0 TC else nd)
        rest headers (r0 + 1) TR TC

/-- `handleLoadData` from `Utils.js` lines 220-245: `null` (here `none`)
for an empty input (the `!Array.isArray(data)` guard is captured by the
list type), otherwise build a fresh store with the first record's keys as
header row 0 and record `i` populating row `i + 1`. -/
def handleLoadData (rows : List Record) (TR TC : Nat) : Option Store :=
  if rows.isEmpty then none
  else
    let headers := (rows.headD []).map Prod.fst
    some (loadRecords (loadHeaders emptyStore headers 0 TC) rows headers 0 TR TC)

/-- JS `editValue.trim()`: drop leading and trailing whitespace
characters (modelled over the string's character list so that it is
kernel-computable; the exact whitespace character set is `Char.isWhitespace`). -/
def jsTrim (s : String) : String :=
  String.mk (((s.data.dropWhile Char.isWhitespace).reverse.dropWhile Char.isWhitespace).reverse)

/-- The store written by the `save` branch of `finishEditing`
(`Canvas.jsx` lines 308-319): an empty (all-whitespace) edit value deletes
the key, a non-empty one is stored. -/
def finishEditingSave (cd : Store) (selected : Nat × Nat) (editValue : String) : Store :=
  if jsTrim editValue = "" then objDelete cd selected else objSet cd selected editValue

/-- History-related component state of `Canvas.jsx`: the `history`,
`historyIndex` and `cellData` React states. -/
structure HistState where
  history : List Store
  historyIndex : Nat
  cellData : Store

/-- `addToHistory` from `Canvas.jsx` lines 273-278: truncate the forward
entries after the cursor, append a snapshot of the new store, move the
cursor to the end. -/
def addToHistory (st : HistState) (newData : Store) : HistState :=
  let newHistory := st.history.take (st.historyIndex + 1) ++ [newData]
  { st with history := newHistory, historyIndex := newHistory.length - 1 }

/-- A committed cell-store mutation: `setCellData(newData)` followed by
`addToHistory(newData)` (the pattern of `finishEditing`, `handlePaste`,
`handleDelete` and `handleLoadData` in `Canvas.jsx`). -/
def commit (st : HistState) (newData : Store) : HistState :=
  addToHistory { st with cellData := newData } newData

/-- `handleUndo` from `Canvas.jsx` lines 825-830. -/
def handleUndo (st : HistState) : HistState :=
  if 0 < st.historyIndex then
    { st with
      historyIndex := st.historyIndex - 1
      cellData := st.history.getD (st.historyIndex - 1) emptyStore }
  else st

/-- `handleRedo` from `Canvas.jsx` lines 832-837. -/
def handleRedo (st : HistState) : HistState :=
  if st.historyIndex < st.history.length - 1 then
    { st with
      historyIndex := st.historyIndex + 1
      cellData := st.history.getD (st.historyIndex + 1) emptyStore }
  else st

/-- `canRedo` as exposed to the toolbar (`Canvas.jsx` line 978):
`historyIndex < history.length - 1`. -/
def canRedo (st : HistState) : Prop :=
  st.historyIndex < st.history.length - 1

/-- Component state whose history holds exactly the initial store
(`Canvas.jsx` lines 34, 47-48 start from an empty store with
`history = [{}]`, `historyIndex = 0`). -/
def initState (s0 : Store) : HistState :=
  { history := [s0], historyIndex := 0, cellData := s0 }

/-- The initial state of `Canvas.jsx` itself. -/
def codeInit : HistState := initState emptyStore

/-- A sequence of committed mutations. -/
def commitAll (st : HistState) (ds : List Store) : HistState :=
  ds.foldl commit st

/-- `getVisibleRowRange` from `Utils.js` lines 57-62. -/
def getVisibleRowRange (scrollTop rh ch chh tr : Nat) : Nat × Nat :=
  let startRow := scrollTop / rh
  let visibleRowsInCanvas := (ch - chh) / rh + 2
  (startRow, min (startRow + visibleRowsInCanvas) tr)

/-- Modelled from the spec: `getVisibleColRange` is imported by
`Canvas.jsx` from `../../Utils` but absent from `src/`; per spec §4.2 the
visible-range query is the per-axis analogue of `getVisibleRowRange`, so
it is modelled with the same shape over the column axis. -/
def getVisibleColRange (scrollLeft cw cwid rhw tc : Nat) : Nat × Nat :=
  let startCol := scrollLeft / cw
  let visibleColsInCanvas := (cwid - rhw) / cw + 2
  (startCol, min (startCol + visibleColsInCanvas) tc)

/-- `getCellFromPointer` from `Canvas.jsx` lines 389-410: canvas-relative
point to logical cell, `none` inside the header bands or out of grid
bounds.  `Math.floor` on the (possibly negative) quotient is `Int.fdiv`. -/
def getCellFromPointer (clientX clientY rectLeft rectTop : Int) (scrollLeft scrollTop : Nat) :
    Option (Int × Int) :=
  let x := clientX - rectLeft
  let y := clientY - rectTop
  if x < (ROW_HEADER_WIDTH : Int) ∨ y < (COL_HEADER_HEIGHT : Int) then none
  else
    let startCol :=
      (getVisibleColRange scrollLeft COL_WIDTH CANVAS_WIDTH ROW_HEADER_WIDTH TOTAL_COLS).1
    let canvasColIndex := (x - (ROW_HEADER_WIDTH : Int)).fdiv (COL_WIDTH : Int)
    let c := (startCol : Int) + canvasColIndex
    let canvasRowIndex := (y - (COL_HEADER_HEIGHT : Int)).fdiv (ROW_HEIGHT : Int)
    let startRow :=
      (getVisibleRowRange scrollTop ROW_HEIGHT CANVAS_HEIGHT COL_HEADER_HEIGHT TOTAL_ROWS).1
    let r := (startRow : Int) + canvasRowIndex
    if 0 ≤ c ∧ c < (TOTAL_COLS : Int) ∧ 0 ≤ r ∧ r < (TOTAL_ROWS : Int) then some (r, c)
    else none

/-- The screen origin `startEditing` computes for cell `(row, col)`
(`Canvas.jsx` lines 281-288), from the same visible-range state. -/
def startEditingPos (row col : Nat) (rectLeft rectTop : Int) (scrollLeft scrollTop : Nat) :
    Int × Int :=
  let startRow :=
    (getVisibleRowRange scrollTop ROW_HEIGHT CANVAS_HEIGHT COL_HEADER_HEIGHT TOTAL_ROWS).1
  let startCol :=
    (getVisibleColRange scrollLeft COL_WIDTH CANVAS_WIDTH ROW_HEADER_WIDTH TOTAL_COLS).1
  (rectLeft + (ROW_HEADER_WIDTH : Int) + ((col : Int) - (startCol : Int)) * (COL_WIDTH : Int),
   rectTop + (COL_HEADER_HEIGHT : Int) + ((row : Int) - (startRow : Int)) * (ROW_HEIGHT : Int))

/-!
Effect-level embeddings for the frame property (C10).  Each clipboard
operation is re-translated with explicit state passing over the pair
`(cellData, newData)`: the first component is the object the caller passed
in, the second the `const newData = { ...cellData }` copy the source
mutates.  Every JS write statement acts on the component its source line
names, so these definitions record which object each write targets.
-/

/-- `handleCopy` touched no object: it only reads `cellData`. -/
def handleCopyEff (cellData : Store) (sel : Selection) : Store × Clipboard :=
  (cellData, handleCopy cellData sel)

/-- Delete loop of `handleCut`/`handleDelete` with explicit state: each
`delete newData[key]` mutates the second component only. -/
def deleteRangeEff (st : Store × Store) (sel : Selection) : Store × Store :=
  (rangeIncl sel.startRow sel.endRow).foldl
    (fun st2 r =>
      (rangeIncl sel.startCol sel.endCol).foldl
        (fun st3 c => (st3.1, objDelete st3.2 (r, c))) st2)
    st

/-- `handleDelete` with the argument object tracked. -/
def handleDeleteEff (cellData : Store) (sel : Selection) : Store × Store :=
  deleteRangeEff (cellData, cellData) sel

/-- `handleCut` with the argument object tracked. -/
def handleCutEff (cellData : Store) (sel : Selection) : Store × (Clipboard × Store) :=
  let clipboard := { handleCopy cellData sel with cut := true }
  let st := deleteRangeEff (cellData, cellData) sel
  (st.1, (clipboard, st.2))

/-- Inner paste loop with explicit state: `newData[key] = v` mutates the
second component only. -/
def pasteRowEff (st : Store × Store) (tr ac TR TC : Nat) (cells : List String) (c0 : Nat) :
    Store × Store :=
  match cells with
  | [] => st
  | v :: rest =>
      pasteRowEff (if tr < TR ∧ ac + c0 < TC then (st.1, objSet st.2 (tr, ac + c0) v) else st)
        tr ac TR TC rest (c0 + 1)

/-- Outer paste loop with explicit state. -/
def pasteRowsEff (st : Store × Store) (ar ac TR TC : Nat) (rows : List (List String)) (r0 : Nat) :
    Store × Store :=
  match rows with
  | [] => st
  | row :: rest =>
      pasteRowsEff (pasteRowEff st (ar + r0) ac TR TC row 0) ar ac TR TC rest (r0 + 1)

/-- `handlePaste` with the argument object tracked. -/
def handlePasteEff (cellData : Store) (clipboard : Option Clipboard) (selected : Nat × Nat)
    (TR TC : Nat) : Store × Option Store :=
  match clipboard with
  | none => (cellData, none)
  | some cb =>
      let st := pasteRowsEff (cellData, cellData) selected.1 selected.2 TR TC cb.data 0
      (st.1, some st.2)

/-- The spec's empty-write invariant: no key of the sparse store is bound
to the empty string. -/
def NoEmpty (s : Store) : Prop := ∀ k, s k ≠ some ""

/-- A 1×1 copy-source selection covering only the (absent) cell `(0,0)`. -/
def sel00 : Selection :=
  { startRow := 0, startCol := 0, endRow := 0, endCol := 0, isRange := true }

/-! Helper lemmas about the history state machine. -/

lemma commit_eq (h : List Store) (cd d : Store) (hne : h ≠ []) :
    commit ⟨h, h.length - 1, cd⟩ d = ⟨h ++ [d], h.length, d⟩ := by
  have hpos : 0 < h.length := List.length_pos.mpr hne
  have htake : h.length - 1 + 1 = h.length := Nat.succ_pred_eq_of_pos hpos
  simp [commit, addToHistory, htake, List.take_length]

lemma commitAll_eq (ds : List Store) :
    ∀ (h : List Store) (cd : Store), h ≠ [] →
      commitAll ⟨h, h.length - 1, cd⟩ ds =
        ⟨h ++ ds, h.length + ds.length - 1, ds.getLastD cd⟩ := by
  induction ds with
  | nil => intro h cd hne; simp [commitAll]
  | cons d rest ih =>
    intro h cd hne
    have hstep : commitAll ⟨h, h.length - 1, cd⟩ (d :: rest) =
        commitAll (commit ⟨h, h.length - 1, cd⟩ d) rest := rfl
    rw [hstep, commit_eq h cd d hne,
      show (⟨h ++ [d], h.length, d⟩ : HistState) = ⟨h ++ [d], (h ++ [d]).length - 1, d⟩ by simp,
      ih (h ++ [d]) d (by simp)]
    simp only [HistState.mk.injEq]
    refine ⟨by simp, ?_, ?_⟩
    · simp only [List.length_append, List.length_cons, List.length_nil]
      omega
    · rw [List.getLastD_cons]

lemma undo_iter (k : Nat) :
    ∀ (h : List Store) (i : Nat) (cd : Store), k ≤ i →
      handleUndo^[k] ⟨h, i, cd⟩ =
        ⟨h, i - k, if k = 0 then cd else h.getD (i - k) emptyStore⟩ := by
  induction k with
  | zero => intro h i cd _; simp
  | succ k ih =>
    intro h i cd hk
    rw [Function.iterate_succ_apply]
    have hpos : 0 < i := by omega
    have hstep : handleUndo ⟨h, i, cd⟩ = ⟨h, i - 1, h.getD (i - 1) emptyStore⟩ := by
      simp [handleUndo, hpos]
    rw [hstep, ih h (i - 1) _ (by omega)]
    have h1 : i - 1 - k = i - (k + 1) := by omega
    rw [h1]
    have h2 : (if k = 0 then h.getD (i - 1) emptyStore else h.getD (i - (k + 1)) emptyStore)
        = (if k + 1 = 0 then cd else h.getD (i - (k + 1)) emptyStore) := by
      rw [if_neg (Nat.succ_ne_zero k)]
      by_cases hk0 : k = 0
      · subst hk0; simp
      · rw [if_neg hk0]
    rw [h2]

lemma redo_iter (j : Nat) :
    ∀ (h : List Store) (i : Nat) (cd : Store), i + j + 1 ≤ h.length →
      handleRedo^[j] ⟨h, i, cd⟩ =
        ⟨h, i + j, if j = 0 then cd else h.getD (i + j) emptyStore⟩ := by
  induction j with
  | zero => intro h i cd _; simp
  | succ j ih =>
    intro h i cd hj
    rw [Function.iterate_succ_apply]
    have hcond : i < h.length - 1 := by omega
    have hstep : handleRedo ⟨h, i, cd⟩ = ⟨h, i + 1, h.getD (i + 1) emptyStore⟩ := by
      simp [handleRedo, hcond]
    rw [hstep, ih h (i + 1) _ (by omega)]
    have h1 : i + 1 + j = i + (j + 1) := by omega
    rw [h1]
    have h2 : (if j = 0 then h.getD (i + 1) emptyStore else h.getD (i + (j + 1)) emptyStore)
        = (if j + 1 = 0 then cd else h.getD (i + (j + 1)) emptyStore) := by
      rw [if_neg (Nat.succ_ne_zero j)]
      by_cases hj0 : j = 0
      · subst hj0; simp
      · rw [if_neg hj0]
    rw [h2]

lemma getD_cons_take (ds : List Store) :
    ∀ (s0 : Store) (m : Nat), m ≤ ds.length →
      (s0 :: ds).getD m emptyStore = (ds.take m).getLastD s0 := by
  induction ds with
  | nil =>
    intro s0 m hm
    have hm0 : m = 0 := by simpa using hm
    subst hm0
    simp
  | cons d rest ih =>
    intro s0 m hm
    match m with
    | 0 => simp
    | m + 1 =>
      rw [List.getD_cons_succ, List.take_succ_cons, List.getLastD_cons,
        ih d m (by simpa using hm)]

lemma getD_cons_length (ds : List Store) (s0 : Store) :
    (s0 :: ds).getD ds.length emptyStore = ds.getLastD s0 := by
  have h := getD_cons_take ds s0 ds.length le_rfl
  rwa [List.take_length] at h

lemma commitAll_init (s0 : Store) (ds : List Store) :
    commitAll (initState s0) ds = ⟨s0 :: ds, ds.length, ds.getLastD s0⟩ := by
  have h0 : initState s0 = ⟨[s0], ([s0] : List Store).length - 1, s0⟩ := rfl
  rw [h0, commitAll_eq ds [s0] s0 (by simp)]
  simp

/-- C1: Undo/redo round-trip — for every initial store and every sequence
of `N` committed cell-store mutations, after `k ≤ N` undos the store
equals the snapshot after `N - k` commits, and the `j`-th redo after `N`
undos restores the snapshot after `j` commits, in order. -/
theorem c1_undo_redo_round_trip (s0 : Store) (ds : List Store) (k j : Nat)
    (hk : k ≤ ds.length) (hj : j ≤ ds.length) :
    (handleUndo^[k] (commitAll (initState s0) ds)).cellData
        = (commitAll (initState s0) (ds.take (ds.length - k))).cellData ∧
    (handleRedo^[j] (handleUndo^[ds.length] (commitAll (initState s0) ds))).cellData
        = (commitAll (initState s0) (ds.take j)).cellData := by
  have hN := commitAll_init s0 ds
  have hsnap : ∀ m, m ≤ ds.length →
      (commitAll (initState s0) (ds.take m)).cellData = (s0 :: ds).getD m emptyStore := by
    intro m hm
    rw [commitAll_init s0 (ds.take m)]
    dsimp only
    rw [getD_cons_take ds s0 m hm]
  constructor
  · rw [hN, undo_iter k (s0 :: ds) ds.length _ hk,
      hsnap (ds.length - k) (by omega)]
    dsimp only
    by_cases hk0 : k = 0
    · subst hk0
      rw [if_pos rfl, Nat.sub_zero, getD_cons_length]
    · rw [if_neg hk0]
  · have hzero : handleUndo^[ds.length] (commitAll (initState s0) ds) =
        ⟨s0 :: ds, 0, s0⟩ := by
      rw [hN, undo_iter ds.length (s0 :: ds) ds.length _ le_rfl, Nat.sub_self]
      by_cases hds : ds.length = 0
      · have hnil : ds = [] := List.length_eq_zero.mp hds
        subst hnil
        simp
      · rw [if_neg hds]
        simp
    rw [hzero, redo_iter j (s0 :: ds) 0 s0 (by simp only [List.length_cons]; omega),
      hsnap j hj]
    dsimp only
    by_cases hj0 : j = 0
    · subst hj0
      rw [if_pos rfl]
      simp
    · rw [if_neg hj0, Nat.zero_add]

/-- C1 witness at a concrete input: two commits, one undo, two redos. -/
theorem c1_undo_redo_round_trip_witness :
    (1 ≤ ([objSet emptyStore (0, 0) "a", objSet emptyStore (1, 1) "b"] : List Store).length ∧
     2 ≤ ([objSet emptyStore (0, 0) "a", objSet emptyStore (1, 1) "b"] : List Store).length) ∧
    ((handleUndo^[1] (commitAll (initState emptyStore)
          [objSet emptyStore (0, 0) "a", objSet emptyStore (1, 1) "b"])).cellData
        = (commitAll (initState emptyStore)
            (([objSet emptyStore (0, 0) "a", objSet emptyStore (1, 1) "b"] : List Store).take
              (([objSet emptyStore (0, 0) "a", objSet emptyStore (1, 1) "b"] : List Store).length - 1))).cellData ∧
     (handleRedo^[2] (handleUndo^[([objSet emptyStore (0, 0) "a", objSet emptyStore (1, 1) "b"] : List Store).length]
          (commitAll (initState emptyStore)
            [objSet emptyStore (0, 0) "a", objSet emptyStore (1, 1) "b"]))).cellData
        = (commitAll (initState emptyStore)
            (([objSet emptyStore (0, 0) "a", objSet emptyStore (1, 1) "b"] : List Store).take 2)).cellData) :=
  ⟨⟨by decide, by decide⟩,
   c1_undo_redo_round_trip emptyStore
     [objSet emptyStore (0, 0) "a", objSet emptyStore (1, 1) "b"] 1 2 (by decide) (by decide)⟩

/-- C4 (amended): committing truncates the forward entries and appends,
the cursor lands on the new last entry so redo is impossible immediately
after a commit, and there is no capacity bound — the history length after
`N` commits from the component's initial state is exactly `N + 1`. -/
theorem c4_commit_semantics (st : HistState) (d : Store)
    (hidx : st.historyIndex < st.history.length) :
    (commit st d).history = st.history.take (st.historyIndex + 1) ++ [d] ∧
    (commit st d).historyIndex = st.historyIndex + 1 ∧
    (commit st d).cellData = d ∧
    ¬canRedo (commit st d) ∧
    ∀ ds : List Store, (commitAll codeInit ds).history.length = ds.length + 1 := by
  refine ⟨rfl, ?_, rfl, ?_, ?_⟩
  · have htake : (st.history.take (st.historyIndex + 1)).length = st.historyIndex + 1 := by
      rw [List.length_take]
      omega
    simp [commit, addToHistory, htake]
  · simp [canRedo, commit, addToHistory]
  · intro ds
    rw [show codeInit = initState emptyStore from rfl, commitAll_init]
    simp

/-- C4 witness: committing once from the initial state. -/
theorem c4_commit_semantics_witness :
    codeInit.historyIndex < codeInit.history.length ∧
    (commit codeInit emptyStore).historyIndex = 1 ∧
    ¬canRedo (commit codeInit emptyStore) :=
  ⟨by decide,
   by simpa using (c4_commit_semantics codeInit emptyStore (by decide)).2.1,
   (c4_commit_semantics codeInit emptyStore (by decide)).2.2.2.1⟩

/-- C4 counterexample to the claimed capacity bound: from the component's
initial state, 100 commits leave 101 history entries — `addToHistory`
never discards the oldest entry, so the history exceeds the claimed
bounded capacity of 100. -/
theorem c4_capacity_counterexample :
    100 < (commitAll codeInit (List.replicate 100 emptyStore)).history.length := by
  rw [show codeInit = initState emptyStore from rfl, commitAll_init]
  simp

/-- C6: the selection stored by `handlePointerMove` during a cell drag is
always min/max-normalized between anchor and focus, so its bounds are
sorted; dragging from `(5,5)` to `(2,2)` yields `{2,5,2,5}` as a range. -/
theorem c6_drag_selection_normalized :
    (∀ anchor focus : Nat × Nat,
      (dragSelection anchor focus).startRow = min anchor.1 focus.1 ∧
      (dragSelection anchor focus).endRow = max anchor.1 focus.1 ∧
      (dragSelection anchor focus).startCol = min anchor.2 focus.2 ∧
      (dragSelection anchor focus).endCol = max anchor.2 focus.2 ∧
      (dragSelection anchor focus).startRow ≤ (dragSelection anchor focus).endRow ∧
      (dragSelection anchor focus).startCol ≤ (dragSelection anchor focus).endCol) ∧
    dragSelection (5, 5) (2, 2) =
      { startRow := 2, startCol := 2, endRow := 5, endCol := 5, isRange := true } :=
  ⟨fun _ _ => ⟨rfl, rfl, rfl, rfl, min_le_max, min_le_max⟩, by decide⟩

/-- C7: a column-header click selects the full row range of that single
column, a row-header click the full column range of that single row, both
marked as ranges. -/
theorem c7_header_selection_full_span :
    ∀ i : Nat,
      (handleColumnSelection i TOTAL_ROWS).1.startRow = 0 ∧
      (handleColumnSelection i TOTAL_ROWS).1.endRow = TOTAL_ROWS - 1 ∧
      (handleColumnSelection i TOTAL_ROWS).1.startCol = i ∧
      (handleColumnSelection i TOTAL_ROWS).1.endCol = i ∧
      (handleColumnSelection i TOTAL_ROWS).1.isRange = true ∧
      (handleRowSelection i TOTAL_COLS).1.startRow = i ∧
      (handleRowSelection i TOTAL_COLS).1.endRow = i ∧
      (handleRowSelection i TOTAL_COLS).1.startCol = 0 ∧
      (handleRowSelection i TOTAL_COLS).1.endCol = TOTAL_COLS - 1 ∧
      (handleRowSelection i TOTAL_COLS).1.isRange = true :=
  fun _ => ⟨rfl, rfl, rfl, rfl, rfl, rfl, rfl, rfl, rfl, rfl⟩

/-- C8: resize requests are clamped to the floors (column width ≥ 20, row
height ≥ 16), never rejected, and the floor invariant on the size maps is
preserved. -/
theorem c8_resize_floor_clamping (i : Nat) (w ht : Int) (cw rh : SizeMap)
    (hcw : ∀ j v, cw j = some v → MIN_COL_WIDTH ≤ v)
    (hrh : ∀ j v, rh j = some v → MIN_ROW_HEIGHT ≤ v) :
    handleColumnResize i w cw i = some (max MIN_COL_WIDTH w) ∧
    handleRowResize i ht rh i = some (max MIN_ROW_HEIGHT ht) ∧
    (∀ j v, handleColumnResize i w cw j = some v → MIN_COL_WIDTH ≤ v) ∧
    (∀ j v, handleRowResize i ht rh j = some v → MIN_ROW_HEIGHT ≤ v) := by
  refine ⟨by simp [handleColumnResize, mapSet], by simp [handleRowResize, mapSet], ?_, ?_⟩
  · intro j v hv
    by_cases hji : j = i
    · subst hji
      simp [handleColumnResize, mapSet] at hv
      rw [← hv]
      exact le_max_left _ _
    · rw [handleColumnResize, mapSet, if_neg hji] at hv
      exact hcw j v hv
  · intro j v hv
    by_cases hji : j = i
    · subst hji
      simp [handleRowResize, mapSet] at hv
      rw [← hv]
      exact le_max_left _ _
    · rw [handleRowResize, mapSet, if_neg hji] at hv
      exact hrh j v hv

/-- C8 witness: a floor-violating request of width and height `-5` on
empty size maps is clamped to the floors. -/
theorem c8_resize_floor_clamping_witness :
    (∀ j v, (fun _ => none : SizeMap) j = some v → MIN_COL_WIDTH ≤ v) ∧
    handleColumnResize 3 (-5) (fun _ => none) 3 = some (max MIN_COL_WIDTH (-5)) ∧
    handleRowResize 3 (-5) (fun _ => none) 3 = some (max MIN_ROW_HEIGHT (-5)) :=
  ⟨fun _ v hv => by simp at hv,
   (c8_resize_floor_clamping 3 (-5) (-5) (fun _ => none) (fun _ => none)
      (fun _ v hv => by simp at hv) (fun _ v hv => by simp at hv)).1,
   (c8_resize_floor_clamping 3 (-5) (-5) (fun _ => none) (fun _ => none)
      (fun _ v hv => by simp at hv) (fun _ v hv => by simp at hv)).2.1⟩

/-! Helper lemmas for the empty-write invariant. -/

lemma noEmpty_objDelete (s : Store) (k : Nat × Nat) (h : NoEmpty s) :
    NoEmpty (objDelete s k) := by
  intro k2
  simp only [objDelete]
  by_cases hk : k2 = k
  · simp [hk]
  · simp only [if_neg hk]
    exact h k2

lemma noEmpty_objSet (s : Store) (k : Nat × Nat) (v : String) (hv : v ≠ "") (h : NoEmpty s) :
    NoEmpty (objSet s k v) := by
  intro k2
  simp only [objSet]
  by_cases hk : k2 = k
  · simp only [if_pos hk]
    intro hx
    exact hv (Option.some.injEq _ _ ▸ hx)
  · simp only [if_neg hk]
    exact h k2

lemma noEmpty_foldl_delete_inner (cs : List Nat) (r : Nat) :
    ∀ nd : Store, NoEmpty nd →
      NoEmpty (cs.foldl (fun nd3 c => objDelete nd3 (r, c)) nd) := by
  induction cs with
  | nil => intro nd h; exact h
  | cons c rest ih =>
    intro nd h
    rw [List.foldl_cons]
    exact ih _ (noEmpty_objDelete nd (r, c) h)

lemma noEmpty_foldl_delete_outer (rs cs : List Nat) :
    ∀ nd : Store, NoEmpty nd →
      NoEmpty (rs.foldl
        (fun nd2 r => cs.foldl (fun nd3 c => objDelete nd3 (r, c)) nd2) nd) := by
  induction rs with
  | nil => intro nd h; exact h
  | cons r rest ih =>
    intro nd h
    rw [List.foldl_cons]
    exact ih _ (noEmpty_foldl_delete_inner cs r nd h)

lemma noEmpty_deleteRange (cd : Store) (sel : Selection) (h : NoEmpty cd) :
    NoEmpty (deleteRange cd sel) :=
  noEmpty_foldl_delete_outer _ _ cd h

/-- C2 counterexample: copying the absent cell `(0,0)` puts `''` on the
clipboard, and pasting writes that `''` into the store (and `loadTable`
stores `''` for a record value missing under the first record's key), so
the no-empty-string invariant fails after paste and after loadTable. -/
theorem c2_counterexample :
    ((handlePaste emptyStore (some (handleCopy emptyStore sel00)) (0, 0)
        TOTAL_ROWS TOTAL_COLS).getD emptyStore) (0, 0) = some "" ∧
    ((handleLoadData [[("a", "1")], []] TOTAL_ROWS TOTAL_COLS).getD emptyStore) (2, 0)
        = some "" := by
  constructor <;> decide

/-- C2 (amended): the empty-write-deletes invariant holds for the editing
path and the deleting paths — `finishEditing(save)` deletes the key when
the trimmed edit value is empty and never stores `''`, and cut and delete
only remove keys — but not for paste or loadTable, which can store `''`
(see the counterexample). -/
theorem c2_empty_write_deletes (cd : Store) (sel : Selection) (cell : Nat × Nat)
    (ev : String) (hcd : NoEmpty cd) :
    NoEmpty (finishEditingSave cd cell ev) ∧
    NoEmpty (handleDelete cd sel) ∧
    NoEmpty (handleCut cd sel).2 := by
  refine ⟨?_, noEmpty_deleteRange cd sel hcd, noEmpty_deleteRange cd sel hcd⟩
  simp only [finishEditingSave]
  by_cases he : jsTrim ev = ""
  · rw [if_pos he]
    exact noEmpty_objDelete cd cell hcd
  · rw [if_neg he]
    refine noEmpty_objSet cd cell ev ?_ hcd
    intro hev
    exact he (by rw [hev]; decide)

/-- C2 witness: the amended invariant at the empty store. -/
theorem c2_empty_write_deletes_witness :
    NoEmpty emptyStore ∧
    (NoEmpty (finishEditingSave emptyStore (0, 0) "  ") ∧
     NoEmpty (handleDelete emptyStore sel00) ∧
     NoEmpty (handleCut emptyStore sel00).2) :=
  ⟨fun _ => by simp [emptyStore],
   c2_empty_write_deletes emptyStore sel00 (0, 0) "  " (fun _ => by simp [emptyStore])⟩

/-! Pointwise characterization of the paste loops. -/

lemma pasteRow_apply (tr ac TR TC : Nat) (cells : List String) :
    ∀ (nd : Store) (c0 a b : Nat),
      pasteRow nd tr ac TR TC cells c0 (a, b) =
        if a = tr ∧ tr < TR ∧ ac + c0 ≤ b ∧ b < TC ∧ b - (ac + c0) < cells.length
        then some (cells.getD (b - (ac + c0)) "")
        else nd (a, b) := by
  induction cells with
  | nil =>
    intro nd c0 a b
    simp [pasteRow]
  | cons v rest ih =>
    intro nd c0 a b
    simp only [pasteRow]
    rw [ih]
    by_cases hC : a = tr ∧ tr < TR ∧ ac + c0 ≤ b ∧ b < TC ∧ b - (ac + c0) < (v :: rest).length
    · rw [if_pos hC]
      obtain ⟨ha, hTR, hle, hTC, hlen⟩ := hC
      by_cases hb : b = ac + c0
      · have hrest : ¬(a = tr ∧ tr < TR ∧ ac + (c0 + 1) ≤ b ∧ b < TC ∧
            b - (ac + (c0 + 1)) < rest.length) := by
          rintro ⟨-, -, h3, -, -⟩
          omega
        rw [if_neg hrest, if_pos ⟨hTR, by omega⟩]
        simp only [objSet]
        rw [if_pos (by rw [ha, hb]), hb, Nat.sub_self]
        simp
      · have hge : ac + (c0 + 1) ≤ b := by omega
        have hlen2 : b - (ac + (c0 + 1)) < rest.length := by
          simp only [List.length_cons] at hlen
          omega
        rw [if_pos ⟨ha, hTR, hge, hTC, hlen2⟩]
        have hidx : b - (ac + c0) = (b - (ac + (c0 + 1))) + 1 := by omega
        rw [hidx, List.getD_cons_succ]
    · rw [if_neg hC]
      have hrest : ¬(a = tr ∧ tr < TR ∧ ac + (c0 + 1) ≤ b ∧ b < TC ∧
          b - (ac + (c0 + 1)) < rest.length) := by
        rintro ⟨h1, h2, h3, h4, h5⟩
        refine hC ⟨h1, h2, by omega, h4, ?_⟩
        simp only [List.length_cons]
        omega
      rw [if_neg hrest]
      by_cases hw : tr < TR ∧ ac + c0 < TC
      · rw [if_pos hw]
        simp only [objSet]
        have hkey : ¬((a, b) = (tr, ac + c0)) := by
          intro hk
          rw [Prod.mk.injEq] at hk
          obtain ⟨hka, hkb⟩ := hk
          refine hC ⟨hka, hw.1, by omega, by omega, ?_⟩
          simp only [List.length_cons]
          omega
        rw [if_neg hkey]
      · rw [if_neg hw]

lemma pasteRows_apply (ar ac TR TC : Nat) (rows : List (List String)) :
    ∀ (nd : Store) (r0 a b : Nat),
      pasteRows nd ar ac TR TC rows r0 (a, b) =
        if ar + r0 ≤ a ∧ a - (ar + r0) < rows.length ∧ a < TR ∧ ac ≤ b ∧ b < TC ∧
            b - ac < (rows.getD (a - (ar + r0)) []).length
        then some ((rows.getD (a - (ar + r0)) []).getD (b - ac) "")
        else nd (a, b) := by
  induction rows with
  | nil =>
    intro nd r0 a b
    simp [pasteRows]
  | cons row rest ih =>
    intro nd r0 a b
    simp only [pasteRows]
    rw [ih]
    by_cases ha : a = ar + r0
    · have hrest : ¬(ar + (r0 + 1) ≤ a ∧ a - (ar + (r0 + 1)) < rest.length ∧ a < TR ∧
          ac ≤ b ∧ b < TC ∧ b - ac < (rest.getD (a - (ar + (r0 + 1))) []).length) := by
        rintro ⟨h1, -⟩
        omega
      rw [if_neg hrest, pasteRow_apply]
      subst ha
      simp only [Nat.add_zero, Nat.sub_self, List.getD_cons_zero, List.length_cons,
        eq_self_iff_true, true_and, le_refl, Nat.zero_lt_succ]
    · rw [pasteRow_apply]
      have hthis : ¬(a = ar + r0 ∧ ar + r0 < TR ∧ ac + 0 ≤ b ∧ b < TC ∧
          b - (ac + 0) < row.length) := by
        rintro ⟨h1, -⟩
        exact ha h1
      rw [if_neg hthis]
      by_cases hrest : ar + (r0 + 1) ≤ a ∧ a - (ar + (r0 + 1)) < rest.length ∧ a < TR ∧
          ac ≤ b ∧ b < TC ∧ b - ac < (rest.getD (a - (ar + (r0 + 1))) []).length
      · rw [if_pos hrest]
        have hidx : a - (ar + r0) = (a - (ar + (r0 + 1))) + 1 := by omega
        have hcons : ar + r0 ≤ a ∧ a - (ar + r0) < (row :: rest).length ∧ a < TR ∧
            ac ≤ b ∧ b < TC ∧ b - ac < ((row :: rest).getD (a - (ar + r0)) []).length := by
          refine ⟨by omega, ?_, hrest.2.2.1, hrest.2.2.2.1, hrest.2.2.2.2.1, ?_⟩
          · simp only [List.length_cons]
            omega
          · rw [hidx, List.getD_cons_succ]
            exact hrest.2.2.2.2.2
        rw [if_pos hcons, hidx, List.getD_cons_succ]
      · have hcons : ¬(ar + r0 ≤ a ∧ a - (ar + r0) < (row :: rest).length ∧ a < TR ∧
            ac ≤ b ∧ b < TC ∧ b - ac < ((row :: rest).getD (a - (ar + r0)) []).length) := by
          rintro ⟨h1, h2, h3, h4, h5, h6⟩
          have h1' : ar + (r0 + 1) ≤ a := by omega
          have hidx : a - (ar + r0) = (a - (ar + (r0 + 1))) + 1 := by omega
          refine hrest ⟨h1', ?_, h3, h4, h5, ?_⟩
          · simp only [List.length_cons] at h2
            omega
          · rw [hidx, List.getD_cons_succ] at h6
            exact h6
        rw [if_neg hcons, if_neg hrest]

/-- C3: `handlePaste` writes clipboard cell `(r,c)` to `(anchor.r + r,
anchor.c + c)` exactly when that target is inside the grid bounds, skips
out-of-bounds targets without error, leaves every other in-bounds cell
unchanged, and a 5×5 block anchored at `(TOTAL_ROWS-2, 0)` writes exactly
the last 2 rows of the grid. -/
theorem c3_paste_clipping :
    ∀ (cd : Store) (cb : Clipboard) (anchor : Nat × Nat) (TR TC a b : Nat),
      handlePaste cd none anchor TR TC = none ∧
      ((handlePaste cd (some cb) anchor TR TC).getD emptyStore) (a, b) =
        (if anchor.1 ≤ a ∧ a - anchor.1 < cb.data.length ∧ a < TR ∧ anchor.2 ≤ b ∧
            b < TC ∧ b - anchor.2 < (cb.data.getD (a - anchor.1) []).length
         then some ((cb.data.getD (a - anchor.1) []).getD (b - anchor.2) "")
         else cd (a, b)) ∧
      pasteRows emptyStore (TOTAL_ROWS - 2) 0 TOTAL_ROWS TOTAL_COLS
          (List.replicate 5 (List.replicate 5 "x")) 0 (a, b) =
        (if TOTAL_ROWS - 2 ≤ a ∧ a < TOTAL_ROWS ∧ b < 5 then some "x" else none) := by
  intro cd cb anchor TR TC a b
  have hrep : ∀ i, i < 5 →
      (List.replicate 5 (List.replicate 5 "x")).getD i [] = List.replicate 5 "x" := by
    decide
  refine ⟨rfl, ?_, ?_⟩
  · show pasteRows cd anchor.1 anchor.2 TR TC cb.data 0 (a, b) = _
    rw [pasteRows_apply]
    simp only [Nat.add_zero]
  · rw [pasteRows_apply]
    have hTR : TOTAL_ROWS = 100000 := rfl
    have hTC : TOTAL_COLS = 500 := rfl
    simp only [Nat.add_zero, Nat.sub_zero, List.length_replicate]
    by_cases hq : TOTAL_ROWS - 2 ≤ a ∧ a < TOTAL_ROWS ∧ b < 5
    · rw [if_pos hq]
      have hi : a - (TOTAL_ROWS - 2) < 5 := by omega
      rw [hrep _ hi]
      rw [if_pos ⟨hq.1, hi, hq.2.1, Nat.zero_le _, by omega, by simpa using hq.2.2⟩]
      have hb5 : b < 5 := hq.2.2
      interval_cases b <;> simp [emptyStore]
    · rw [if_neg hq]
      have hneg : ¬(TOTAL_ROWS - 2 ≤ a ∧ a - (TOTAL_ROWS - 2) < 5 ∧ a < TOTAL_ROWS ∧
          0 ≤ b ∧ b < TOTAL_COLS ∧
          b < ((List.replicate 5 (List.replicate 5 "x")).getD (a - (TOTAL_ROWS - 2)) []).length) := by
        rintro ⟨h1, h2, h3, -, h5, h6⟩
        rw [hrep _ h2] at h6
        simp only [List.length_replicate] at h6
        exact hq ⟨h1, h3, h6⟩
      rw [if_neg hneg]
      rfl


/-! Pointwise characterization of the loadTable loops. -/

lemma loadHeaders_apply (TC : Nat) (hs : List String) :
    ∀ (nd : Store) (j0 a b : Nat),
      loadHeaders nd hs j0 TC (a, b) =
        if a = 0 ∧ j0 ≤ b ∧ b < TC ∧ b - j0 < hs.length
        then some (hs.getD (b - j0) "")
        else nd (a, b) := by
  induction hs with
  | nil =>
    intro nd j0 a b
    simp [loadHeaders]
  | cons h rest ih =>
    intro nd j0 a b
    simp only [loadHeaders]
    rw [ih]
    by_cases hC : a = 0 ∧ j0 ≤ b ∧ b < TC ∧ b - j0 < (h :: rest).length
    · rw [if_pos hC]
      obtain ⟨ha, hle, hTC, hlen⟩ := hC
      by_cases hb : b = j0
      · have hrest : ¬(a = 0 ∧ j0 + 1 ≤ b ∧ b < TC ∧ b - (j0 + 1) < rest.length) := by
          rintro ⟨-, h3, -, -⟩
          omega
        rw [if_neg hrest, if_pos (show j0 < TC by omega)]
        simp only [objSet]
        rw [if_pos (by rw [ha, hb]), hb, Nat.sub_self]
        simp
      · have hge : j0 + 1 ≤ b := by omega
        have hlen2 : b - (j0 + 1) < rest.length := by
          simp only [List.length_cons] at hlen
          omega
        rw [if_pos ⟨ha, hge, hTC, hlen2⟩]
        have hidx : b - j0 = (b - (j0 + 1)) + 1 := by omega
        rw [hidx, List.getD_cons_succ]
    · rw [if_neg hC]
      have hrest : ¬(a = 0 ∧ j0 + 1 ≤ b ∧ b < TC ∧ b - (j0 + 1) < rest.length) := by
        rintro ⟨h1, h3, h4, h5⟩
        refine hC ⟨h1, by omega, h4, ?_⟩
        simp only [List.length_cons]
        omega
      rw [if_neg hrest]
      by_cases hw : j0 < TC
      · rw [if_pos hw]
        simp only [objSet]
        have hkey : ¬((a, b) = ((0 : Nat), j0)) := by
          intro hk
          rw [Prod.mk.injEq] at hk
          obtain ⟨hka, hkb⟩ := hk
          refine hC ⟨hka, by omega, by omega, ?_⟩
          simp only [List.length_cons]
          omega
        rw [if_neg hkey]
      · rw [if_neg hw]

lemma loadRecord_apply (ri TC : Nat) (row : Record) (hs : List String) :
    ∀ (nd : Store) (j0 a b : Nat),
      loadRecord nd ri hs row j0 TC (a, b) =
        if a = ri ∧ j0 ≤ b ∧ b < TC ∧ b - j0 < hs.length
        then some ((lookupRec row (hs.getD (b - j0) "")).getD "")
        else nd (a, b) := by
  induction hs with
  | nil =>
    intro nd j0 a b
    simp [loadRecord]
  | cons h rest ih =>
    intro nd j0 a b
    simp only [loadRecord]
    rw [ih]
    by_cases hC : a = ri ∧ j0 ≤ b ∧ b < TC ∧ b - j0 < (h :: rest).length
    · rw [if_pos hC]
      obtain ⟨ha, hle, hTC, hlen⟩ := hC
      by_cases hb : b = j0
      · have hrest : ¬(a = ri ∧ j0 + 1 ≤ b ∧ b < TC ∧ b - (j0 + 1) < rest.length) := by
          rintro ⟨-, h3, -, -⟩
          omega
        rw [if_neg hrest, if_pos (show j0 < TC by omega)]
        simp only [objSet]
        rw [if_pos (by rw [ha, hb]), hb, Nat.sub_self]
        simp
      · have hge : j0 + 1 ≤ b := by omega
        have hlen2 : b - (j0 + 1) < rest.length := by
          simp only [List.length_cons] at hlen
          omega
        rw [if_pos ⟨ha, hge, hTC, hlen2⟩]
        have hidx : b - j0 = (b - (j0 + 1)) + 1 := by omega
        rw [hidx, List.getD_cons_succ]
    · rw [if_neg hC]
      have hrest : ¬(a = ri ∧ j0 + 1 ≤ b ∧ b < TC ∧ b - (j0 + 1) < rest.length) := by
        rintro ⟨h1, h3, h4, h5⟩
        refine hC ⟨h1, by omega, h4, ?_⟩
        simp only [List.length_cons]
        omega
      rw [if_neg hrest]
      by_cases hw : j0 < TC
      · rw [if_pos hw]
        simp only [objSet]
        have hkey : ¬((a, b) = (ri, j0)) := by
          intro hk
          rw [Prod.mk.injEq] at hk
          obtain ⟨hka, hkb⟩ := hk
          refine hC ⟨hka, by omega, by omega, ?_⟩
          simp only [List.length_cons]
          omega
        rw [if_neg hkey]
      · rw [if_neg hw]

lemma loadRecords_apply (TR TC : Nat) (hs : List String) (rows : List Record) :
    ∀ (nd : Store) (r0 a b : Nat),
      loadRecords nd rows hs r0 TR TC (a, b) =
        if r0 + 1 ≤ a ∧ a - (r0 + 1) < rows.length ∧ a < TR ∧ b < TC ∧ b < hs.length
        then some ((lookupRec (rows.getD (a - (r0 + 1)) []) (hs.getD b "")).getD "")
        else nd (a, b) := by
  induction rows with
  | nil =>
    intro nd r0 a b
    simp [loadRecords]
  | cons row rest ih =>
    intro nd r0 a b
    simp only [loadRecords]
    rw [ih]
    by_cases ha : a = r0 + 1
    · have hrest : ¬(r0 + 1 + 1 ≤ a ∧ a - (r0 + 1 + 1) < rest.length ∧ a < TR ∧
          b < TC ∧ b < hs.length) := by
        rintro ⟨h1, -⟩
        omega
      rw [if_neg hrest]
      by_cases hg : r0 + 1 < TR
      · rw [if_pos hg, loadRecord_apply]
        subst ha
        simp only [Nat.sub_self, Nat.sub_zero, Nat.zero_le, List.getD_cons_zero,
          List.length_cons, eq_self_iff_true, true_and, le_refl, Nat.zero_lt_succ, hg]
      · rw [if_neg hg]
        subst ha
        rw [if_neg (by rintro ⟨-, -, h3, -, -⟩; exact hg h3)]
    · by_cases hg : r0 + 1 < TR
      · rw [if_pos hg, loadRecord_apply]
        have hthis : ¬(a = r0 + 1 ∧ 0 ≤ b ∧ b < TC ∧ b - 0 < hs.length) := by
          rintro ⟨h1, -⟩
          exact ha h1
        rw [if_neg hthis]
        by_cases hrest : r0 + 1 + 1 ≤ a ∧ a - (r0 + 1 + 1) < rest.length ∧ a < TR ∧
            b < TC ∧ b < hs.length
        · rw [if_pos hrest]
          have hidx : a - (r0 + 1) = (a - (r0 + 1 + 1)) + 1 := by omega
          have hcons : r0 + 1 ≤ a ∧ a - (r0 + 1) < (row :: rest).length ∧ a < TR ∧
              b < TC ∧ b < hs.length := by
            refine ⟨by omega, ?_, hrest.2.2.1, hrest.2.2.2.1, hrest.2.2.2.2⟩
            simp only [List.length_cons]
            omega
          rw [if_pos hcons, hidx, List.getD_cons_succ]
        · have hcons : ¬(r0 + 1 ≤ a ∧ a - (r0 + 1) < (row :: rest).length ∧ a < TR ∧
              b < TC ∧ b < hs.length) := by
            rintro ⟨h1, h2, h3, h4, h5⟩
            have h1' : r0 + 1 + 1 ≤ a := by omega
            refine hrest ⟨h1', ?_, h3, h4, h5⟩
            simp only [List.length_cons] at h2
            omega
          rw [if_neg hcons, if_neg hrest]
      · rw [if_neg hg]
        rw [if_neg (by rintro ⟨h1, -, h3, -, -⟩; omega),
          if_neg (by rintro ⟨h1, -, h3, -, -⟩; omega)]

/-- C9: `handleLoadData` maps the first record's keys to header row 0
(`j`-th key at `(0,j)` for `j < TC`), record `i` to row `i+1` for
`i+1 < TR` with the value looked up under the `j`-th header (absent values
stored as `""`), drops all writes beyond the grid bounds, and is a no-op
(`none`) on an empty input. -/
theorem c9_load_table (rows : List Record) (TR TC b : Nat) (hne : rows ≠ []) :
    handleLoadData ([] : List Record) TR TC = none ∧
    handleLoadData rows TR TC ≠ none ∧
    ((handleLoadData rows TR TC).getD emptyStore) (0, b) =
      (if b < TC ∧ b < ((rows.headD []).map Prod.fst).length
       then some (((rows.headD []).map Prod.fst).getD b "")
       else none) ∧
    ∀ i, ((handleLoadData rows TR TC).getD emptyStore) (i + 1, b) =
      (if i < rows.length ∧ i + 1 < TR ∧ b < TC ∧ b < ((rows.headD []).map Prod.fst).length
       then some ((lookupRec (rows.getD i []) (((rows.headD []).map Prod.fst).getD b "")).getD "")
       else none) := by
  obtain ⟨rec0, rest, rfl⟩ := List.exists_cons_of_ne_nil hne
  refine ⟨rfl, by simp [handleLoadData], ?_, ?_⟩
  · show loadRecords (loadHeaders emptyStore (rec0.map Prod.fst) 0 TC)
        (rec0 :: rest) (rec0.map Prod.fst) 0 TR TC (0, b) = _
    simp only [List.headD_cons]
    rw [loadRecords_apply, if_neg (by rintro ⟨h1, -⟩; omega), loadHeaders_apply]
    by_cases hq : b < TC ∧ b < (rec0.map Prod.fst).length
    · rw [if_pos (show (0 : Nat) = 0 ∧ 0 ≤ b ∧ b < TC ∧
            b - 0 < (rec0.map Prod.fst).length from
          ⟨rfl, Nat.zero_le _, hq.1, by have h2 := hq.2; omega⟩),
        if_pos hq]
      have hidx : b - 0 = b := Nat.sub_zero b
      rw [hidx]
    · rw [if_neg (by rintro ⟨-, -, h3, h4⟩; exact hq ⟨h3, by omega⟩), if_neg hq]
      rfl
  · intro i
    show loadRecords (loadHeaders emptyStore (rec0.map Prod.fst) 0 TC)
        (rec0 :: rest) (rec0.map Prod.fst) 0 TR TC (i + 1, b) = _
    simp only [List.headD_cons]
    rw [loadRecords_apply]
    by_cases hq : i < (rec0 :: rest).length ∧ i + 1 < TR ∧ b < TC ∧
        b < (rec0.map Prod.fst).length
    · rw [if_pos (show 0 + 1 ≤ i + 1 ∧ i + 1 - (0 + 1) < (rec0 :: rest).length ∧
          i + 1 < TR ∧ b < TC ∧ b < (rec0.map Prod.fst).length from
          ⟨by omega, by have h1 := hq.1; omega, hq.2.1, hq.2.2.1, hq.2.2.2⟩),
        if_pos hq]
      have hidx : i + 1 - (0 + 1) = i := by omega
      rw [hidx]
    · rw [if_neg (by rintro ⟨-, h2, h3, h4, h5⟩; exact hq ⟨by omega, h3, h4, h5⟩),
        loadHeaders_apply, if_neg (by rintro ⟨h1, -⟩; omega), if_neg hq]
      rfl

/-- C9 witness at a concrete two-record table. -/
theorem c9_load_table_witness :
    (([[("name", "alice")], [("name", "bob")]] : List Record) ≠ []) ∧
    (handleLoadData ([] : List Record) 100000 500 = none ∧
     handleLoadData ([[("name", "alice")], [("name", "bob")]] : List Record) 100000 500 ≠ none ∧
     ((handleLoadData ([[("name", "alice")], [("name", "bob")]] : List Record) 100000 500).getD
        emptyStore) (0, 0) =
       (if 0 < 500 ∧ 0 < ((([[("name", "alice")], [("name", "bob")]] : List Record).headD []).map
            Prod.fst).length
        then some (((([[("name", "alice")], [("name", "bob")]] : List Record).headD []).map
            Prod.fst).getD 0 "")
        else none) ∧
     ∀ i, ((handleLoadData ([[("name", "alice")], [("name", "bob")]] : List Record) 100000
          500).getD emptyStore) (i + 1, 0) =
       (if i < ([[("name", "alice")], [("name", "bob")]] : List Record).length ∧ i + 1 < 100000 ∧
            0 < 500 ∧
            0 < ((([[("name", "alice")], [("name", "bob")]] : List Record).headD []).map
              Prod.fst).length
        then some ((lookupRec (([[("name", "alice")], [("name", "bob")]] : List Record).getD i [])
            (((([[("name", "alice")], [("name", "bob")]] : List Record).headD []).map
              Prod.fst).getD 0 "")).getD "")
        else none)) :=
  ⟨by decide,
   c9_load_table ([[("name", "alice")], [("name", "bob")]] : List Record) 100000 500 0
     (by decide)⟩

/-! The pixel/cell round trip (the viewport mapping). -/

/-- C5: resolving the point one pixel right of and below the screen origin
`startEditing` computes for `(row, col)` — from the same visible-range
state — returns exactly `(row, col)`, for every cell inside the current
visible row and column ranges and every scroll position. -/
theorem c5_pixel_cell_round_trip (row col scrollTop scrollLeft : Nat) (rectLeft rectTop : Int)
    (hr1 : (getVisibleRowRange scrollTop ROW_HEIGHT CANVAS_HEIGHT COL_HEADER_HEIGHT
        TOTAL_ROWS).1 ≤ row)
    (hr2 : row < (getVisibleRowRange scrollTop ROW_HEIGHT CANVAS_HEIGHT COL_HEADER_HEIGHT
        TOTAL_ROWS).2)
    (hc1 : (getVisibleColRange scrollLeft COL_WIDTH CANVAS_WIDTH ROW_HEADER_WIDTH
        TOTAL_COLS).1 ≤ col)
    (hc2 : col < (getVisibleColRange scrollLeft COL_WIDTH CANVAS_WIDTH ROW_HEADER_WIDTH
        TOTAL_COLS).2) :
    getCellFromPointer ((startEditingPos row col rectLeft rectTop scrollLeft scrollTop).1 + 1)
        ((startEditingPos row col rectLeft rectTop scrollLeft scrollTop).2 + 1)
        rectLeft rectTop scrollLeft scrollTop = some ((row : Int), (col : Int)) := by
  simp only [getVisibleRowRange, getVisibleColRange, ROW_HEIGHT, CANVAS_HEIGHT,
    COL_HEADER_HEIGHT, TOTAL_ROWS, COL_WIDTH, CANVAS_WIDTH, ROW_HEADER_WIDTH,
    TOTAL_COLS] at hr1 hr2 hc1 hc2
  have hrow : row < 100000 := lt_of_lt_of_le hr2 (min_le_right _ _)
  have hcol : col < 500 := lt_of_lt_of_le hc2 (min_le_right _ _)
  simp only [getCellFromPointer, startEditingPos, getVisibleRowRange, getVisibleColRange,
    ROW_HEIGHT, CANVAS_HEIGHT, COL_HEADER_HEIGHT, TOTAL_ROWS, COL_WIDTH, CANVAS_WIDTH,
    ROW_HEADER_WIDTH, TOTAL_COLS]
  rw [if_neg (by push_cast; omega)]
  rw [Int.fdiv_eq_ediv _ (by norm_num), Int.fdiv_eq_ediv _ (by norm_num)]
  rw [if_pos (by push_cast; constructor <;> [omega; (constructor <;> [omega; (constructor <;>
    omega)])])]
  simp only [Option.some.injEq, Prod.mk.injEq]
  constructor <;> [skip; skip] <;> push_cast <;> omega

/-- C5 witness at a concrete scroll position and cell. -/
theorem c5_pixel_cell_round_trip_witness :
    ((getVisibleRowRange 30 ROW_HEIGHT CANVAS_HEIGHT COL_HEADER_HEIGHT TOTAL_ROWS).1 ≤ 2 ∧
     2 < (getVisibleRowRange 30 ROW_HEIGHT CANVAS_HEIGHT COL_HEADER_HEIGHT TOTAL_ROWS).2 ∧
     (getVisibleColRange 100 COL_WIDTH CANVAS_WIDTH ROW_HEADER_WIDTH TOTAL_COLS).1 ≤ 3 ∧
     3 < (getVisibleColRange 100 COL_WIDTH CANVAS_WIDTH ROW_HEADER_WIDTH TOTAL_COLS).2) ∧
    getCellFromPointer ((startEditingPos 2 3 5 7 100 30).1 + 1)
        ((startEditingPos 2 3 5 7 100 30).2 + 1) 5 7 100 30 = some ((2 : Int), (3 : Int)) :=
  ⟨⟨by decide, by decide, by decide, by decide⟩,
   c5_pixel_cell_round_trip 2 3 30 100 5 7 (by decide) (by decide) (by decide) (by decide)⟩

/-! Linking the effect-level clipboard operations to the pure ones. -/

lemma pasteRowEff_eq (tr ac TR TC : Nat) (cells : List String) :
    ∀ (st : Store × Store) (c0 : Nat),
      pasteRowEff st tr ac TR TC cells c0 = (st.1, pasteRow st.2 tr ac TR TC cells c0) := by
  induction cells with
  | nil => intro st c0; rfl
  | cons v rest ih =>
    intro st c0
    simp only [pasteRowEff, pasteRow]
    by_cases hw : tr < TR ∧ ac + c0 < TC
    · rw [if_pos hw, if_pos hw, ih]
    · rw [if_neg hw, if_neg hw, ih]

lemma pasteRowsEff_eq (ar ac TR TC : Nat) (rows : List (List String)) :
    ∀ (st : Store × Store) (r0 : Nat),
      pasteRowsEff st ar ac TR TC rows r0 = (st.1, pasteRows st.2 ar ac TR TC rows r0) := by
  induction rows with
  | nil => intro st r0; rfl
  | cons row rest ih =>
    intro st r0
    simp only [pasteRowsEff, pasteRows]
    rw [pasteRowEff_eq, ih]

lemma deleteInnerEff_eq (cs : List Nat) (r : Nat) :
    ∀ st : Store × Store,
      cs.foldl (fun st3 c => (st3.1, objDelete st3.2 (r, c))) st =
        (st.1, cs.foldl (fun nd3 c => objDelete nd3 (r, c)) st.2) := by
  induction cs with
  | nil => intro st; rfl
  | cons c rest ih =>
    intro st
    rw [List.foldl_cons, List.foldl_cons, ih]

lemma deleteRangeEff_eq (sel : Selection) :
    ∀ st : Store × Store, deleteRangeEff st sel = (st.1, deleteRange st.2 sel) := by
  simp only [deleteRangeEff, deleteRange]
  generalize rangeIncl sel.startRow sel.endRow = rs
  generalize rangeIncl sel.startCol sel.endCol = cs
  induction rs with
  | nil => intro st; rfl
  | cons r rest ih =>
    intro st
    rw [List.foldl_cons, List.foldl_cons, deleteInnerEff_eq, ih]

/-- C10: none of the clipboard operations mutates the store object passed
to them — re-translated with explicit state passing, the argument object
holds exactly its original bindings after each call, every write landing
on the spread copy, and the returned copy agrees with the pure
embeddings. -/
theorem c10_input_store_not_mutated :
    ∀ (cd : Store) (sel : Selection) (cb : Option Clipboard) (anchor : Nat × Nat) (TR TC : Nat),
      (handleCopyEff cd sel).1 = cd ∧
      (handleCopyEff cd sel).2 = handleCopy cd sel ∧
      (handleCutEff cd sel).1 = cd ∧
      (handleCutEff cd sel).2 = handleCut cd sel ∧
      (handleDeleteEff cd sel).1 = cd ∧
      (handleDeleteEff cd sel).2 = handleDelete cd sel ∧
      (handlePasteEff cd cb anchor TR TC).1 = cd ∧
      (handlePasteEff cd cb anchor TR TC).2 = handlePaste cd cb anchor TR TC := by
  intro cd sel cb anchor TR TC
  have hdel := deleteRangeEff_eq sel (cd, cd)
  refine ⟨rfl, rfl, ?_, ?_, ?_, ?_, ?_, ?_⟩
  · simp only [handleCutEff, hdel]
  · simp only [handleCutEff, handleCut, hdel]
  · simp only [handleDeleteEff, hdel]
  · simp only [handleDeleteEff, handleDelete, hdel]
  · cases cb with
    | none => rfl
    | some c => simp only [handlePasteEff, pasteRowsEff_eq]
  · cases cb with
    | none => rfl
    | some c => simp only [handlePasteEff, handlePaste, pasteRowsEff_eq]

end ZeusGrid
